import Mathlib

/-!
Verification of `prepare.py` (dataset splitter and record flattener).

Shallow embedding conventions:
* Python floats are modelled as `ℚ`; the literal `1e-10` becomes `1 / 10 ^ 10`.
* `int(x)` (truncation toward zero) is `pyTrunc`.
* A Python value passed as `data` is `PyData α`: a list, a dict (association
  list with insertion order; Python guarantees unique keys), or any other
  value (`other`), which `split_dataset` rejects with a `TypeError`.
* The `random` module's global generator is modelled by explicit state
  passing: a state type `σ`, a `seedFn : ℤ → σ` for `random.seed`, and a
  `sampleFn : σ → List ℕ → ℤ → Option (List ℕ) × σ` for `random.sample`
  (`none` models the `ValueError` raised when the requested size is negative
  or exceeds the population).  The Mersenne Twister itself is not part of the
  repository; `ValidSampler` captures exactly what `random.sample` guarantees:
  on a duplicate-free population and a size in range it returns that many
  distinct elements of the population, otherwise it raises.
* `list(set(a) - set(b))` is modelled as the order-preserving
  `a.filter (· ∉ b)`: CPython's set iteration order is unspecified and no
  claim depends on it; as sets the two agree.
* Raised exceptions become `Except` errors; writing to a file in
  `organize_conclusion` becomes returning the list of records written.
-/

/-- Errors `split_dataset` can raise: `TypeError` for non-list/dict data,
`ValueError("Ratios must sum to 1")`, and the `ValueError` raised inside
`random.sample` when a requested sample size is negative or too large. -/
inductive SplitError where
  | typeError
  | ratioError
  | sampleError
deriving DecidableEq, Repr

/-- A Python value passed as the `data` argument: a list, a dict
(association list, keys unique in a real Python dict), or anything else. -/
inductive PyData (α : Type) where
  | pylist : List α → PyData α
  | pydict : List (String × α) → PyData α
  | other : PyData α
deriving DecidableEq, Repr

/-- `len(data)` for a list or dict (number of items / keys). -/
def PyData.len {α : Type} : PyData α → ℕ
  | .pylist l => l.length
  | .pydict d => d.length
  | .other => 0

/-- Python `int(q)`: truncation toward zero. -/
def pyTrunc (q : ℚ) : ℤ := if q < 0 then -((-q).floor) else q.floor

/-- The `split_indices` dictionary returned by `split_dataset`. -/
structure SplitIndices where
  train_indices : List ℕ
  val_indices : List ℕ
  test_indices : List ℕ
deriving DecidableEq, Repr

/-- The quadruple returned by `split_dataset`. -/
structure SplitResult (α : Type) where
  train_set : PyData α
  val_set : PyData α
  test_set : PyData α
  split_indices : SplitIndices
deriving DecidableEq, Repr

instance {ε α : Type} [DecidableEq ε] [DecidableEq α] : DecidableEq (Except ε α) :=
  fun a b =>
    match a, b with
    | .error e1, .error e2 =>
      if h : e1 = e2 then isTrue (h ▸ rfl)
      else isFalse (fun hh => h (Except.error.inj hh))
    | .error _, .ok _ => isFalse (fun h => Except.noConfusion h)
    | .ok _, .error _ => isFalse (fun h => Except.noConfusion h)
    | .ok v1, .ok v2 =>
      if h : v1 = v2 then isTrue (h ▸ rfl)
      else isFalse (fun hh => h (Except.ok.inj hh))

/-- Model of `random.sample` together with the generator state it threads:
`sampleFn state population k` returns the drawn list (or `none` for the
`ValueError` on an out-of-range size) and the successor state. -/
abbrev Sampler (σ : Type) := σ → List ℕ → ℤ → Option (List ℕ) × σ

/-- What `random.sample(population, k)` guarantees on a duplicate-free
population: for `0 ≤ k ≤ len(population)` it returns `k` distinct elements
of the population; otherwise it raises `ValueError`. -/
def ValidSampler {σ : Type} (s : Sampler σ) : Prop :=
  ∀ (g : σ) (pool : List ℕ) (k : ℤ), pool.Nodup →
    ((0 ≤ k ∧ k ≤ (pool.length : ℤ)) →
      ∃ out g2, s g pool k = (some out, g2) ∧
        (out.length : ℤ) = k ∧ out.Nodup ∧ out ⊆ pool) ∧
    (¬(0 ≤ k ∧ k ≤ (pool.length : ℤ)) → (s g pool k).1 = none)

/-- `[items[i] for i in idxs]` (indices produced by the sampler are always in
range, so out-of-range access is given a default instead of `IndexError`). -/
def select {β : Type} (items : List β) (dflt : β) (idxs : List ℕ) : List β :=
  idxs.map (fun i => items.getD i dflt)

/-- One step of Python's `dict(pairs)` constructor: a repeated key overwrites
the stored value in place, a new key is appended. -/
def dictInsert {α : Type} (d : List (String × α)) (kv : String × α) :
    List (String × α) :=
  if d.any (fun p => p.1 == kv.1) then
    d.map (fun p => if p.1 == kv.1 then (p.1, kv.2) else p)
  else d ++ [kv]

/-- Python `dict(pairs)`. -/
def dictOfPairs {α : Type} (l : List (String × α)) : List (String × α) :=
  l.foldl dictInsert []

/-- Lines 33-45 of `prepare.py`: build `all_indices = range(total)`, draw the
train sample, compute the remaining indices, draw the val sample, and take
what is left as test indices.  `none` models the `ValueError` propagating out
of either `random.sample` call. -/
def split_core {σ : Type} (sampleFn : Sampler σ) (g : σ) (total : ℕ)
    (train_size val_size : ℤ) : Option SplitIndices × σ :=
  let all_indices := List.range total
  match sampleFn g all_indices train_size with
  | (none, g1) => (none, g1)
  | (some train_indices, g1) =>
    let remaining_indices := all_indices.filter (fun i => decide (i ∉ train_indices))
    match sampleFn g1 remaining_indices val_size with
    | (none, g2) => (none, g2)
    | (some val_indices, g2) =>
      let test_indices := remaining_indices.filter (fun i => decide (i ∉ val_indices))
      (some ⟨train_indices, val_indices, test_indices⟩, g2)

/-- `split_dataset(data, train_ratio, val_ratio, test_ratio, random_seed)`
from `prepare.py`, with the process-global generator state passed explicitly
(`g0` is the state on entry; `random.seed` replaces it by `seedFn random_seed`
before any sampling). -/
def split_dataset {σ α : Type} [Inhabited α] (sampleFn : Sampler σ)
    (seedFn : ℤ → σ) (data : PyData α)
    (train_ratio val_ratio test_ratio : ℚ) (random_seed : ℤ) (g0 : σ) :
    Except SplitError (SplitResult α) × σ :=
  match data with
  | .other => (.error .typeError, g0)
  | .pylist l =>
    if |train_ratio + val_ratio + test_ratio - 1| > 1 / 10 ^ 10 then
      (.error .ratioError, g0)
    else
      let g := seedFn random_seed
      let total_size := l.length
      let train_size := pyTrunc ((total_size : ℚ) * train_ratio)
      let val_size := pyTrunc ((total_size : ℚ) * val_ratio)
      match split_core sampleFn g total_size train_size val_size with
      | (none, g2) => (.error .sampleError, g2)
      | (some idx, g2) =>
        (.ok ⟨.pylist (select l default idx.train_indices),
              .pylist (select l default idx.val_indices),
              .pylist (select l default idx.test_indices), idx⟩, g2)
  | .pydict d =>
    if |train_ratio + val_ratio + test_ratio - 1| > 1 / 10 ^ 10 then
      (.error .ratioError, g0)
    else
      let g := seedFn random_seed
      let total_size := d.length
      let train_size := pyTrunc ((total_size : ℚ) * train_ratio)
      let val_size := pyTrunc ((total_size : ℚ) * val_ratio)
      match split_core sampleFn g total_size train_size val_size with
      | (none, g2) => (.error .sampleError, g2)
      | (some idx, g2) =>
        (.ok ⟨.pydict (dictOfPairs (select d ("", default) idx.train_indices)),
              .pydict (dictOfPairs (select d ("", default) idx.val_indices)),
              .pydict (dictOfPairs (select d ("", default) idx.test_indices)),
              idx⟩, g2)

/-- A deterministic instance of the sampler interface (draws the first `k`
elements of the population), used to evaluate the development on concrete
inputs. -/
def takeSampler : Sampler Unit := fun g pool k =>
  (if 0 ≤ k ∧ k ≤ (pool.length : ℤ) then some (pool.take k.toNat) else none, g)

/-- Seed function for `takeSampler` (its state carries no information). -/
def unitSeed : ℤ → Unit := fun _ => ()

/- ------------------------------------------------------------------ -/
/- Record flattener (`organize_conclusion`, lines 67-82).              -/
/- ------------------------------------------------------------------ -/

/-- A JSON-ish value for the `MESHES` / `final_decision` fields. -/
inductive PyVal where
  | str : String → PyVal
  | strlist : List String → PyVal
deriving DecidableEq, Repr

/-- A record as the flattener sees it: a dict in which any of the required
fields may be absent (`none` models a missing key, whose access raises
`KeyError`). -/
structure RawRecord where
  CONTEXTS : Option (List String)
  LONG_ANSWER : Option String
  QUESTION : Option String
  MESHES : Option PyVal
  final_decision : Option PyVal
deriving DecidableEq, Repr

/-- A record has every field the flattener reads. -/
def RawRecord.complete (r : RawRecord) : Prop :=
  r.CONTEXTS.isSome ∧ r.LONG_ANSWER.isSome ∧ r.QUESTION.isSome ∧
    r.MESHES.isSome ∧ r.final_decision.isSome

instance : DecidablePred RawRecord.complete := fun r => by
  unfold RawRecord.complete; infer_instance

/-- Errors `organize_conclusion` can raise: `TypeError` from indexing a list
with a non-integer (`dataset[entry]` when `dataset` is a list of records) and
`KeyError` from a missing record field. -/
inductive FlatError where
  | typeError
  | keyError
deriving DecidableEq, Repr

/-- One line of the output file, as the decoded JSON object. -/
structure FlatRecord where
  idx : String
  QUESTION : String
  CONCLUSION : String
  TYPE : PyVal
  FINAL_DECISION : PyVal
deriving DecidableEq, Repr

/-- The dataset argument of `organize_conclusion`: the intended shape is a
dict keyed by identifier; a list of records is also a possible call shape
(the Splitter returns lists for list input). -/
inductive FlatInput where
  | fdict : List (String × RawRecord) → FlatInput
  | flist : List RawRecord → FlatInput
deriving DecidableEq, Repr

/-- The loop body for one `(entry, record)` pair: build the conclusion string
(each context followed by `\n`, then the long answer followed by `\n`) and
the output object; a missing field raises `KeyError`.  Field access order
follows the source: `CONTEXTS`, `LONG_ANSWER`, then the dict literal. -/
def flattenRecord (entry : String) (r : RawRecord) :
    Except FlatError FlatRecord :=
  match r.CONTEXTS with
  | none => .error .keyError
  | some ctxs =>
    let conclusion := ctxs.foldl (fun acc c => acc ++ c ++ "\n") ""
    match r.LONG_ANSWER with
    | none => .error .keyError
    | some ans =>
      let conclusion := conclusion ++ ans ++ "\n"
      match r.QUESTION, r.MESHES, r.final_decision with
      | some q, some m, some fd =>
        .ok ⟨entry, q, conclusion, m, fd⟩
      | none, _, _ => .error .keyError
      | some _, none, _ => .error .keyError
      | some _, some _, none => .error .keyError

/-- The loop of `organize_conclusion` over a dict: one output line per entry,
in iteration order; the first missing field aborts the run. -/
def flattenAll : List (String × RawRecord) → Except FlatError (List FlatRecord)
  | [] => .ok []
  | (k, r) :: rest =>
    match flattenRecord k r with
    | .error e => .error e
    | .ok fr =>
      match flattenAll rest with
      | .error e => .error e
      | .ok frs => .ok (fr :: frs)

/-- `organize_conclusion(dataset, filename)`: iterating a dict yields its
keys and `dataset[entry]` the records; iterating a non-empty list of records
yields a record as `entry`, and `dataset[entry]` — indexing a list with a
non-integer — raises `TypeError` at the first entry, while an empty list
makes the loop body never run. -/
def organize_conclusion : FlatInput → Except FlatError (List FlatRecord)
  | .fdict d => flattenAll d
  | .flist l =>
    match l with
    | [] => .ok []
    | _ :: _ => .error .typeError

/-- Spec-side description of the conclusion string (used to compare the
source's `foldl` accumulation against the spec's words): each string of
`CONTEXTS` followed by a newline, then `LONG_ANSWER` followed by a newline. -/
def conclusionSpec : List String → String → String
  | [], ans => ans ++ "\n"
  | c :: cs, ans => c ++ "\n" ++ conclusionSpec cs ans

/- ------------------------------------------------------------------ -/
/- Helper lemmas.                                                      -/
/- ------------------------------------------------------------------ -/

theorem takeSampler_valid : ValidSampler takeSampler := by
  intro g pool k hpool
  constructor
  · intro hk
    refine ⟨pool.take k.toNat, g, ?_, ?_, ?_, ?_⟩
    · simp [takeSampler, hk]
    · rw [List.length_take]
      have hle : k.toNat ≤ pool.length := Int.toNat_le.mpr hk.2
      rw [min_eq_left hle]
      exact_mod_cast Int.toNat_of_nonneg hk.1
    · exact hpool.sublist (List.take_sublist _ _)
    · exact List.take_subset _ _
  · intro hk
    simp [takeSampler, hk]

theorem sampler_ok {σ : Type} {s : Sampler σ} (hs : ValidSampler s) {g g' : σ}
    {pool : List ℕ} {k : ℤ} {out : List ℕ} (hpool : pool.Nodup)
    (h : s g pool k = (some out, g')) :
    (out.length : ℤ) = k ∧ out.Nodup ∧ out ⊆ pool := by
  rcases hs g pool k hpool with ⟨hin, hno⟩
  by_cases hk : 0 ≤ k ∧ k ≤ (pool.length : ℤ)
  · rcases hin hk with ⟨o2, g2, heq, hlen, hnd, hsub⟩
    rw [heq] at h
    injection h with h1 h2
    injection h1 with h1
    subst h1
    exact ⟨hlen, hnd, hsub⟩
  · have hz := hno hk
    rw [h] at hz
    simp at hz

theorem mem_filter_not_mem {l sub : List ℕ} {i : ℕ} :
    i ∈ l.filter (fun j => decide (j ∉ sub)) ↔ i ∈ l ∧ i ∉ sub := by
  rw [List.mem_filter]
  simp

theorem filter_not_mem_length {l sub : List ℕ} (hl : l.Nodup) (hsub : sub.Nodup)
    (hss : sub ⊆ l) :
    (l.filter (fun i => decide (i ∉ sub))).length + sub.length = l.length := by
  have hperm1 : List.Subperm (l.filter (fun i => decide (i ∈ sub))) sub := by
    apply List.Nodup.subperm (hl.filter _)
    intro x hx
    rw [List.mem_filter] at hx
    exact of_decide_eq_true hx.2
  have hperm2 : List.Subperm sub (l.filter (fun i => decide (i ∈ sub))) := by
    apply List.Nodup.subperm hsub
    intro x hx
    rw [List.mem_filter]
    exact ⟨hss hx, decide_eq_true hx⟩
  have hlen : (l.filter (fun i => decide (i ∈ sub))).length = sub.length :=
    le_antisymm hperm1.length_le hperm2.length_le
  have htot := List.length_eq_length_filter_add (l := l) (fun i => decide (i ∈ sub))
  rw [hlen] at htot
  simp only [decide_not] at htot ⊢
  omega

theorem split_core_some {σ : Type} {s : Sampler σ} (hs : ValidSampler s)
    {g g2 : σ} {total : ℕ} {tsize vsize : ℤ} {idx : SplitIndices}
    (h : split_core s g total tsize vsize = (some idx, g2)) :
    ((idx.train_indices.length : ℤ) = tsize ∧ (idx.val_indices.length : ℤ) = vsize) ∧
    (idx.train_indices.Nodup ∧ idx.val_indices.Nodup ∧ idx.test_indices.Nodup) ∧
    (∀ i ∈ idx.train_indices, i < total) ∧
    (∀ i ∈ idx.val_indices, i < total ∧ i ∉ idx.train_indices) ∧
    (∀ i, i ∈ idx.test_indices ↔ i < total ∧ i ∉ idx.train_indices ∧ i ∉ idx.val_indices) ∧
    idx.train_indices.length + idx.val_indices.length + idx.test_indices.length = total := by
  simp only [split_core] at h
  rcases h1 : s g (List.range total) tsize with ⟨o1, g1⟩
  rw [h1] at h
  cases o1 with
  | none => simp at h
  | some ti =>
    dsimp only at h
    rcases h2 : s g1 ((List.range total).filter (fun i => decide (i ∉ ti))) vsize with ⟨o2, g2'⟩
    rw [h2] at h
    cases o2 with
    | none => simp at h
    | some vi =>
      dsimp only at h
      injection h with hidx hg
      injection hidx with hidx
      subst hidx
      dsimp only
      obtain ⟨hlent, hndt, hsubt⟩ := sampler_ok hs (List.nodup_range total) h1
      have hremnd : ((List.range total).filter (fun i => decide (i ∉ ti))).Nodup :=
        (List.nodup_range total).filter _
      obtain ⟨hlenv, hndv, hsubv⟩ := sampler_ok hs hremnd h2
      have hremlen := filter_not_mem_length (List.nodup_range total) hndt
        (fun x hx => hsubt hx)
      rw [List.length_range] at hremlen
      have htestlen := filter_not_mem_length hremnd hndv (fun x hx => hsubv hx)
      have htrmem : ∀ i ∈ ti, i < total := by
        intro i hi
        exact List.mem_range.mp (hsubt hi)
      have hvmem : ∀ i ∈ vi, i < total ∧ i ∉ ti := by
        intro i hi
        have := mem_filter_not_mem.mp (hsubv hi)
        exact ⟨List.mem_range.mp this.1, this.2⟩
      refine ⟨⟨hlent, hlenv⟩, ⟨hndt, hndv, hremnd.filter _⟩, htrmem, hvmem, ?_, ?_⟩
      · intro i
        rw [mem_filter_not_mem, mem_filter_not_mem, List.mem_range]
        tauto
      · omega

theorem split_core_exists {σ : Type} {s : Sampler σ} (hs : ValidSampler s)
    (g : σ) (total : ℕ) (tsize vsize : ℤ)
    (h0t : 0 ≤ tsize) (hts : tsize ≤ (total : ℤ))
    (h0v : 0 ≤ vsize) (hvs : vsize ≤ (total : ℤ) - tsize) :
    ∃ idx g2, split_core s g total tsize vsize = (some idx, g2) := by
  rcases hs g (List.range total) tsize (List.nodup_range total) with ⟨hin, _⟩
  rcases hin ⟨h0t, by simpa using hts⟩ with ⟨ti, g1, heq1, hlen1, hnd1, hsub1⟩
  have hremnd : ((List.range total).filter (fun i => decide (i ∉ ti))).Nodup :=
    (List.nodup_range total).filter _
  have hremlen := filter_not_mem_length (List.nodup_range total) hnd1
    (fun x hx => hsub1 hx)
  rw [List.length_range] at hremlen
  rcases hs g1 ((List.range total).filter (fun i => decide (i ∉ ti))) vsize hremnd with
    ⟨hin2, _⟩
  have hvrange : 0 ≤ vsize ∧ vsize ≤
      ((((List.range total).filter (fun i => decide (i ∉ ti))).length : ℕ) : ℤ) := by
    constructor
    · exact h0v
    · have : (((List.range total).filter (fun i => decide (i ∉ ti))).length : ℤ) =
          (total : ℤ) - tsize := by
        omega
      omega
  rcases hin2 hvrange with ⟨vi, g2, heq2, hlen2, hnd2, hsub2⟩
  refine ⟨⟨ti, vi, ((List.range total).filter (fun i => decide (i ∉ ti))).filter
    (fun i => decide (i ∉ vi))⟩, g2, ?_⟩
  simp only [split_core, heq1, heq2]

theorem pyTrunc_eq_floor {q : ℚ} (h : 0 ≤ q) : pyTrunc q = ⌊q⌋ := by
  unfold pyTrunc
  rw [if_neg (not_lt.mpr h)]
  rfl

theorem trunc_size_nonneg {n : ℕ} {t : ℚ} (h0 : 0 ≤ t) :
    0 ≤ pyTrunc ((n : ℚ) * t) := by
  have hq : 0 ≤ (n : ℚ) * t := mul_nonneg (by positivity) h0
  rw [pyTrunc_eq_floor hq]
  exact Int.floor_nonneg.mpr hq

theorem trunc_size_le {n : ℕ} {t : ℚ} (h0 : 0 ≤ t) (h1 : t ≤ 1) :
    pyTrunc ((n : ℚ) * t) ≤ (n : ℤ) := by
  have hq : 0 ≤ (n : ℚ) * t := mul_nonneg (by positivity) h0
  rw [pyTrunc_eq_floor hq]
  calc ⌊(n : ℚ) * t⌋ ≤ ⌊((n : ℕ) : ℚ)⌋ := by
        apply Int.floor_le_floor
        nlinarith [Nat.cast_nonneg (α := ℚ) n]
    _ = (n : ℤ) := Int.floor_natCast n

theorem trunc_sizes_add_le {n : ℕ} {t v : ℚ} (h0t : 0 ≤ t) (h0v : 0 ≤ v)
    (htv : t + v ≤ 1) :
    pyTrunc ((n : ℚ) * t) + pyTrunc ((n : ℚ) * v) ≤ (n : ℤ) := by
  have hqt : 0 ≤ (n : ℚ) * t := mul_nonneg (by positivity) h0t
  have hqv : 0 ≤ (n : ℚ) * v := mul_nonneg (by positivity) h0v
  rw [pyTrunc_eq_floor hqt, pyTrunc_eq_floor hqv]
  have hstep : ⌊(n : ℚ) * t⌋ + ⌊(n : ℚ) * v⌋ ≤ ⌊(n : ℚ) * t + (n : ℚ) * v⌋ := by
    apply Int.le_floor.mpr
    push_cast
    exact add_le_add (Int.floor_le _) (Int.floor_le _)
  calc ⌊(n : ℚ) * t⌋ + ⌊(n : ℚ) * v⌋ ≤ ⌊(n : ℚ) * t + (n : ℚ) * v⌋ := hstep
    _ ≤ ⌊((n : ℕ) : ℚ)⌋ := by
        apply Int.floor_le_floor
        nlinarith [Nat.cast_nonneg (α := ℚ) n]
    _ = (n : ℤ) := Int.floor_natCast n

theorem length_select {β : Type} (items : List β) (dflt : β) (idxs : List ℕ) :
    (select items dflt idxs).length = idxs.length :=
  List.length_map _ _

theorem dictInsert_of_fresh {α : Type} {d : List (String × α)} {kv : String × α}
    (h : ∀ p ∈ d, p.1 ≠ kv.1) : dictInsert d kv = d ++ [kv] := by
  have hany : d.any (fun p => p.1 == kv.1) = false := by
    rw [List.any_eq_false]
    intro p hp
    simpa using h p hp
  unfold dictInsert
  rw [hany]
  simp

theorem foldl_dictInsert_of_nodup {α : Type} :
    ∀ (l acc : List (String × α)), ((acc ++ l).map Prod.fst).Nodup →
      l.foldl dictInsert acc = acc ++ l := by
  intro l
  induction l with
  | nil => intro acc _; simp
  | cons x xs ih =>
    intro acc h
    rw [List.foldl_cons]
    have hx : dictInsert acc x = acc ++ [x] := by
      apply dictInsert_of_fresh
      intro p hp hpx
      rw [List.map_append, List.nodup_append] at h
      exact h.2.2 (List.mem_map_of_mem _ hp) (by rw [hpx]; simp)
    rw [hx, ih (acc ++ [x]) (by simpa using h)]
    simp

theorem dictOfPairs_of_nodup {α : Type} {l : List (String × α)}
    (h : (l.map Prod.fst).Nodup) : dictOfPairs l = l := by
  unfold dictOfPairs
  rw [foldl_dictInsert_of_nodup l [] (by simpa using h)]
  simp

theorem select_keys_nodup {α : Type} [Inhabited α] {d : List (String × α)}
    (hk : (d.map Prod.fst).Nodup) {idxs : List ℕ} (hnd : idxs.Nodup)
    (hlt : ∀ i ∈ idxs, i < d.length) :
    ((select d ("", default) idxs).map Prod.fst).Nodup := by
  unfold select
  rw [List.map_map]
  apply hnd.map_on
  intro i hi j hj hija
  have hi' := hlt i hi
  have hj' := hlt j hj
  simp only [Function.comp_apply] at hija
  rw [List.getD_eq_getElem _ _ hi', List.getD_eq_getElem _ _ hj'] at hija
  have hmap : (d.map Prod.fst).get ⟨i, by simpa using hi'⟩ =
      (d.map Prod.fst).get ⟨j, by simpa using hj'⟩ := by
    simp only [List.get_eq_getElem, List.getElem_map]
    exact hija
  rw [hk.get_inj_iff] at hmap
  simpa using hmap

theorem select_dict_length {α : Type} [Inhabited α] {d : List (String × α)}
    (hk : (d.map Prod.fst).Nodup) {idxs : List ℕ} (hnd : idxs.Nodup)
    (hlt : ∀ i ∈ idxs, i < d.length) :
    (dictOfPairs (select d ("", default) idxs)).length = idxs.length := by
  rw [dictOfPairs_of_nodup (select_keys_nodup hk hnd hlt)]
  exact length_select _ _ _

theorem split_dataset_pylist_ok {σ α : Type} [Inhabited α] {s : Sampler σ}
    (hs : ValidSampler s) (f : ℤ → σ) (l : List α) (t v te : ℚ)
    (h0t : 0 ≤ t) (h0v : 0 ≤ v) (htv : t + v ≤ 1)
    (hr : ¬(|t + v + te - 1| > 1 / 10 ^ 10)) (seed : ℤ) (g0 : σ) :
    ∃ idx g2,
      split_core s (f seed) l.length (pyTrunc ((l.length : ℚ) * t))
        (pyTrunc ((l.length : ℚ) * v)) = (some idx, g2) ∧
      split_dataset s f (.pylist l) t v te seed g0 =
        (.ok ⟨.pylist (select l default idx.train_indices),
              .pylist (select l default idx.val_indices),
              .pylist (select l default idx.test_indices), idx⟩, g2) := by
  have ht1 : t ≤ 1 := by linarith
  obtain ⟨idx, g2, hc⟩ := split_core_exists hs (f seed) l.length
    (pyTrunc ((l.length : ℚ) * t)) (pyTrunc ((l.length : ℚ) * v))
    (trunc_size_nonneg h0t) (trunc_size_le h0t ht1) (trunc_size_nonneg h0v)
    (by have := trunc_sizes_add_le (n := l.length) h0t h0v htv; omega)
  refine ⟨idx, g2, hc, ?_⟩
  simp only [split_dataset]
  rw [if_neg hr]
  rw [hc]

theorem split_dataset_pydict_ok {σ α : Type} [Inhabited α] {s : Sampler σ}
    (hs : ValidSampler s) (f : ℤ → σ) (d : List (String × α)) (t v te : ℚ)
    (h0t : 0 ≤ t) (h0v : 0 ≤ v) (htv : t + v ≤ 1)
    (hr : ¬(|t + v + te - 1| > 1 / 10 ^ 10)) (seed : ℤ) (g0 : σ) :
    ∃ idx g2,
      split_core s (f seed) d.length (pyTrunc ((d.length : ℚ) * t))
        (pyTrunc ((d.length : ℚ) * v)) = (some idx, g2) ∧
      split_dataset s f (.pydict d) t v te seed g0 =
        (.ok ⟨.pydict (dictOfPairs (select d ("", default) idx.train_indices)),
              .pydict (dictOfPairs (select d ("", default) idx.val_indices)),
              .pydict (dictOfPairs (select d ("", default) idx.test_indices)),
              idx⟩, g2) := by
  have ht1 : t ≤ 1 := by linarith
  obtain ⟨idx, g2, hc⟩ := split_core_exists hs (f seed) d.length
    (pyTrunc ((d.length : ℚ) * t)) (pyTrunc ((d.length : ℚ) * v))
    (trunc_size_nonneg h0t) (trunc_size_le h0t ht1) (trunc_size_nonneg h0v)
    (by have := trunc_sizes_add_le (n := d.length) h0t h0v htv; omega)
  refine ⟨idx, g2, hc, ?_⟩
  simp only [split_dataset]
  rw [if_neg hr]
  rw [hc]

theorem split_dataset_pylist_inv {σ α : Type} [Inhabited α] {s : Sampler σ}
    {f : ℤ → σ} {l : List α} {t v te : ℚ} {seed : ℤ} {g0 : σ}
    {res : SplitResult α}
    (h : (split_dataset s f (.pylist l) t v te seed g0).1 = .ok res) :
    ∃ g2, split_core s (f seed) l.length (pyTrunc ((l.length : ℚ) * t))
        (pyTrunc ((l.length : ℚ) * v)) = (some res.split_indices, g2) ∧
      res.train_set = .pylist (select l default res.split_indices.train_indices) ∧
      res.val_set = .pylist (select l default res.split_indices.val_indices) ∧
      res.test_set = .pylist (select l default res.split_indices.test_indices) := by
  simp only [split_dataset] at h
  by_cases hr : |t + v + te - 1| > 1 / 10 ^ 10
  · rw [if_pos hr] at h
    simp at h
  · rw [if_neg hr] at h
    rcases hc : split_core s (f seed) l.length (pyTrunc ((l.length : ℚ) * t))
      (pyTrunc ((l.length : ℚ) * v)) with ⟨o, g2⟩
    rw [hc] at h
    cases o with
    | none => simp at h
    | some idx =>
      dsimp only at h
      injection h with h
      subst h
      exact ⟨g2, rfl, rfl, rfl, rfl⟩

theorem split_dataset_pydict_inv {σ α : Type} [Inhabited α] {s : Sampler σ}
    {f : ℤ → σ} {d : List (String × α)} {t v te : ℚ} {seed : ℤ} {g0 : σ}
    {res : SplitResult α}
    (h : (split_dataset s f (.pydict d) t v te seed g0).1 = .ok res) :
    ∃ g2, split_core s (f seed) d.length (pyTrunc ((d.length : ℚ) * t))
        (pyTrunc ((d.length : ℚ) * v)) = (some res.split_indices, g2) ∧
      res.train_set =
        .pydict (dictOfPairs (select d ("", default) res.split_indices.train_indices)) ∧
      res.val_set =
        .pydict (dictOfPairs (select d ("", default) res.split_indices.val_indices)) ∧
      res.test_set =
        .pydict (dictOfPairs (select d ("", default) res.split_indices.test_indices)) := by
  simp only [split_dataset] at h
  by_cases hr : |t + v + te - 1| > 1 / 10 ^ 10
  · rw [if_pos hr] at h
    simp at h
  · rw [if_neg hr] at h
    rcases hc : split_core s (f seed) d.length (pyTrunc ((d.length : ℚ) * t))
      (pyTrunc ((d.length : ℚ) * v)) with ⟨o, g2⟩
    rw [hc] at h
    cases o with
    | none => simp at h
    | some idx =>
      dsimp only at h
      injection h with h
      subst h
      exact ⟨g2, rfl, rfl, rfl, rfl⟩

example : pyTrunc ((4 : ℚ) * (3 / 4)) = 3 := by with_unfolding_all decide
example : pyTrunc (-(1 : ℚ) / 2) = 0 := by with_unfolding_all decide
example : pyTrunc ((2 : ℚ) * (3 / 2)) = 3 := by with_unfolding_all decide
example :
    (split_dataset takeSampler unitSeed (.pylist [10, 20, 30]) 1 0 0 42 ()).1 =
      .ok ⟨.pylist [10, 20, 30], .pylist [], .pylist [], ⟨[0, 1, 2], [], []⟩⟩ := by
  with_unfolding_all decide

theorem perm_range_of_nodup {idxs : List ℕ} {n : ℕ} (hnd : idxs.Nodup)
    (hlt : ∀ i ∈ idxs, i < n) (hlen : idxs.length = n) :
    idxs.Perm (List.range n) := by
  have hsub : idxs ⊆ List.range n := fun i hi => List.mem_range.mpr (hlt i hi)
  exact (hnd.subperm hsub).perm_of_length_le (by rw [hlen, List.length_range])

theorem map_getD_range {β : Type} (l : List β) (dflt : β) :
    (List.range l.length).map (fun i => l.getD i dflt) = l := by
  apply List.ext_get
  · simp
  · intro n h1 h2
    simp only [List.get_map, List.get_range]
    exact List.getD_eq_get _ _ _

theorem split_core_none {σ : Type} {s : Sampler σ} {g g1 : σ} {total : ℕ}
    {tsize vsize : ℤ} (h : s g (List.range total) tsize = (none, g1)) :
    split_core s g total tsize vsize = (none, g1) := by
  simp only [split_core, h]

/- ------------------------------------------------------------------ -/
/- Claims.                                                             -/
/- ------------------------------------------------------------------ -/

/-- C2: `split_dataset` is deterministic in its explicit arguments: because
the generator is re-seeded with the supplied seed before any sampling, the
returned value (error or train/val/test subsets plus index sets) does not
depend on the generator state the call starts from, so two calls with
identical arguments agree. -/
theorem split_dataset_deterministic {σ α : Type} [Inhabited α] (s : Sampler σ)
    (f : ℤ → σ) (data : PyData α) (t v te : ℚ) (seed : ℤ) (g1 g2 : σ) :
    (split_dataset s f data t v te seed g1).1 =
      (split_dataset s f data t v te seed g2).1 := by
  cases data with
  | other => rfl
  | pylist l =>
    simp only [split_dataset]
    split_ifs <;> rfl
  | pydict d =>
    simp only [split_dataset]
    split_ifs <;> rfl

/-- C4: for list or dict data, `split_dataset` raises the ratio
`ValueError` exactly when `|train_ratio + val_ratio + test_ratio - 1|`
exceeds `1e-10`, and in that case it returns immediately (no data is split,
the generator state is untouched). -/
theorem split_dataset_ratio_validation {σ α : Type} [Inhabited α]
    (s : Sampler σ) (f : ℤ → σ) (data : PyData α) (t v te : ℚ) (seed : ℤ)
    (g0 : σ) (hdata : data ≠ .other) :
    ((split_dataset s f data t v te seed g0).1 = .error .ratioError ↔
      |t + v + te - 1| > 1 / 10 ^ 10) ∧
    (|t + v + te - 1| > 1 / 10 ^ 10 →
      split_dataset s f data t v te seed g0 = (.error .ratioError, g0)) := by
  cases data with
  | other => exact absurd rfl hdata
  | pylist l =>
    constructor
    · constructor
      · intro h
        by_contra hr
        simp only [split_dataset] at h
        rw [if_neg hr] at h
        rcases hc : split_core s (f seed) l.length (pyTrunc ((l.length : ℚ) * t))
          (pyTrunc ((l.length : ℚ) * v)) with ⟨o, g2⟩
        rw [hc] at h
        cases o with
        | none => simp at h
        | some idx => simp at h
      · intro hr
        simp only [split_dataset]
        rw [if_pos hr]
    · intro hr
      simp only [split_dataset]
      rw [if_pos hr]
  | pydict d =>
    constructor
    · constructor
      · intro h
        by_contra hr
        simp only [split_dataset] at h
        rw [if_neg hr] at h
        rcases hc : split_core s (f seed) d.length (pyTrunc ((d.length : ℚ) * t))
          (pyTrunc ((d.length : ℚ) * v)) with ⟨o, g2⟩
        rw [hc] at h
        cases o with
        | none => simp at h
        | some idx => simp at h
      · intro hr
        simp only [split_dataset]
        rw [if_pos hr]
    · intro hr
      simp only [split_dataset]
      rw [if_pos hr]

/-- C4 witness: `split(data, 0.5, 0.3, 0.3, seed)` (sum 1.1) fails with the
ratio error and splits nothing, while `split(data, 0.6, 0.2, 0.2, seed)`
does not raise the ratio error. -/
theorem split_dataset_ratio_validation_witness :
    split_dataset takeSampler unitSeed (.pylist [1, 2, 3]) (5/10) (3/10) (3/10)
      42 () = (.error .ratioError, ()) ∧
    ¬ ((split_dataset takeSampler unitSeed (.pylist [1, 2, 3]) (6/10) (2/10)
      (2/10) 42 ()).1 = .error .ratioError) := by
  constructor
  · exact (split_dataset_ratio_validation takeSampler unitSeed
      (.pylist [1, 2, 3]) (5/10) (3/10) (3/10) 42 ()
      (fun h => PyData.noConfusion h)).2 (by with_unfolding_all decide)
  · intro h
    have := (split_dataset_ratio_validation takeSampler unitSeed
      (.pylist [1, 2, 3]) (6/10) (2/10) (2/10) 42 ()
      (fun hh => PyData.noConfusion hh)).1.mp h
    exact absurd this (by with_unfolding_all decide)

/-- C5: `split_dataset` raises a `TypeError` for data that is neither a list
nor a dict, whatever the other arguments are (before any other processing:
the generator state is untouched); and `split([1,2,3], 1.0, 0.0, 0.0, 0)`
succeeds with all three items in train and empty val and test subsets. -/
theorem split_dataset_type_validation {σ α : Type} [Inhabited α] (s : Sampler σ)
    (f : ℤ → σ) :
    (∀ (t v te : ℚ) (seed : ℤ) (g0 : σ),
      split_dataset s f (.other : PyData α) t v te seed g0 =
        (.error .typeError, g0)) ∧
    (ValidSampler s → ∀ (a b c : α) (seed : ℤ) (g0 : σ),
      ∃ res g2,
        split_dataset s f (.pylist [a, b, c]) 1 0 0 seed g0 = (.ok res, g2) ∧
        (∃ tr, res.train_set = .pylist tr ∧ tr.Perm [a, b, c]) ∧
        res.val_set = .pylist ([] : List α) ∧
        res.test_set = .pylist ([] : List α)) := by
  constructor
  · intro t v te seed g0
    rfl
  · intro hs a b c seed g0
    obtain ⟨idx, g2, hc, heq⟩ := split_dataset_pylist_ok hs f [a, b, c]
      1 0 0 (by norm_num) (by norm_num) (by norm_num) (by norm_num) seed g0
    obtain ⟨⟨hlent, hlenv⟩, ⟨hndt, _, _⟩, hmemt, _, _, hsum⟩ := split_core_some hs hc
    rw [show [a, b, c].length = 3 from rfl] at hlent hlenv hmemt hsum
    have h3 : pyTrunc (((3 : ℕ) : ℚ) * 1) = 3 := by with_unfolding_all decide
    have h0 : pyTrunc (((3 : ℕ) : ℚ) * 0) = 0 := by with_unfolding_all decide
    rw [h3] at hlent
    rw [h0] at hlenv
    have hvnil : idx.val_indices = [] := List.length_eq_zero.mp (by omega)
    have htlen : idx.train_indices.length = 3 := by omega
    have htnil : idx.test_indices = [] := List.length_eq_zero.mp (by omega)
    refine ⟨_, g2, heq, ⟨select [a, b, c] default idx.train_indices, rfl, ?_⟩,
      ?_, ?_⟩
    · have hperm : idx.train_indices.Perm (List.range 3) :=
        perm_range_of_nodup hndt hmemt htlen
      have hm := hperm.map (fun i => List.getD [a, b, c] i default)
      have hmr : (List.range 3).map (fun i => List.getD [a, b, c] i default) =
          [a, b, c] := map_getD_range [a, b, c] default
      rw [hmr] at hm
      simpa [select] using hm
    · simp [hvnil, select]
    · simp [htnil, select]

/-- C5 witness: the type error at a non-collection, and the
`split([1,2,3], 1.0, 0.0, 0.0, 0)` call. -/
theorem split_dataset_type_validation_witness :
    split_dataset takeSampler unitSeed (.other : PyData ℕ) (1/2) (1/4) (1/4)
      0 () = (.error .typeError, ()) ∧
    (∃ res g2,
      split_dataset takeSampler unitSeed (.pylist [1, 2, 3]) 1 0 0 0 () =
        (.ok res, g2) ∧
      (∃ tr, res.train_set = .pylist tr ∧ tr.Perm [1, 2, 3]) ∧
      res.val_set = .pylist ([] : List ℕ) ∧
      res.test_set = .pylist ([] : List ℕ)) :=
  ⟨(split_dataset_type_validation takeSampler unitSeed).1 (1/2) (1/4) (1/4)
      0 (),
   (split_dataset_type_validation takeSampler unitSeed).2 takeSampler_valid
      1 2 3 0 ()⟩

/-- C10 counterexample: ratios (1.5, -0.5, 0.0) sum to 1 so the ratio check
passes, but on the non-empty one-element list the call does NOT fail in the
sampling step: `train_size = int(1 * 1.5) = 1` and `val_size = int(1 * -0.5)
= 0` (truncation toward zero), so both draws are in range and the call
succeeds. -/
theorem split_dataset_negative_ratio_counterexample :
    (split_dataset takeSampler unitSeed (.pylist [0]) (3/2) (-(1/2)) 0 7 ()).1 =
      .ok ⟨.pylist [0], .pylist [], .pylist [], ⟨[0], [], []⟩⟩ := by
  with_unfolding_all decide

/-- C10 (amended): the ratio validation tests only the sum of the three
ratios — any triple within `1e-10` of summing to 1 passes it, negative
components included, and non-negativity is never enforced — and the
(1.5, -0.5, 0.0) call on data with at least two items fails later, in the
sampling step, with the sampling error rather than the ratio error (on
one-element data it instead succeeds, since `int(-0.5) = 0`). -/
theorem split_dataset_ratio_sum_only {σ α : Type} [Inhabited α] (s : Sampler σ)
    (f : ℤ → σ) :
    (∀ (data : PyData α) (t v te : ℚ) (seed : ℤ) (g0 : σ),
      ¬(|t + v + te - 1| > 1 / 10 ^ 10) →
      (split_dataset s f data t v te seed g0).1 ≠ .error .ratioError) ∧
    (ValidSampler s → ∀ (l : List α) (seed : ℤ) (g0 : σ), 2 ≤ l.length →
      (split_dataset s f (.pylist l) (3/2) (-(1/2)) 0 seed g0).1 =
        .error .sampleError) := by
  constructor
  · intro data t v te seed g0 hr h
    cases data with
    | other => simp [split_dataset] at h
    | pylist l =>
      simp only [split_dataset] at h
      rw [if_neg hr] at h
      rcases hc : split_core s (f seed) l.length (pyTrunc ((l.length : ℚ) * t))
        (pyTrunc ((l.length : ℚ) * v)) with ⟨o, g2⟩
      rw [hc] at h
      cases o with
      | none => simp at h
      | some idx => simp at h
    | pydict d =>
      simp only [split_dataset] at h
      rw [if_neg hr] at h
      rcases hc : split_core s (f seed) d.length (pyTrunc ((d.length : ℚ) * t))
        (pyTrunc ((d.length : ℚ) * v)) with ⟨o, g2⟩
      rw [hc] at h
      cases o with
      | none => simp at h
      | some idx => simp at h
  · intro hs l seed g0 hlen
    have hr : ¬(|(3 : ℚ)/2 + -(1/2) + 0 - 1| > 1 / 10 ^ 10) := by
      with_unfolding_all decide
    simp only [split_dataset]
    rw [if_neg hr]
    have htsize : (l.length : ℤ) < pyTrunc ((l.length : ℚ) * (3/2)) := by
      have h1 : (0 : ℚ) ≤ (l.length : ℚ) * (3/2) := by positivity
      rw [pyTrunc_eq_floor h1]
      rw [Int.lt_iff_add_one_le]
      apply Int.le_floor.mpr
      push_cast
      have h2 : (2 : ℚ) ≤ (l.length : ℚ) := by exact_mod_cast hlen
      nlinarith
    rcases h1 : s (f seed) (List.range l.length) (pyTrunc ((l.length : ℚ) * (3/2)))
      with ⟨o, g1⟩
    have hnone := (hs (f seed) (List.range l.length)
      (pyTrunc ((l.length : ℚ) * (3/2))) (List.nodup_range l.length)).2 (by
        intro hcon
        rw [List.length_range] at hcon
        omega)
    rw [h1] at hnone
    dsimp only at hnone
    subst hnone
    rw [split_core_none h1]

/-- C10 witness: a sum-respecting triple is not rejected by the ratio check,
and the (1.5, -0.5, 0.0) call on a two-element list ends in the sampling
error. -/
theorem split_dataset_ratio_sum_only_witness :
    ((split_dataset takeSampler unitSeed (.pylist [9]) (1/4) (1/4) (1/2) 3
      ()).1 ≠ .error .ratioError) ∧
    (split_dataset takeSampler unitSeed (.pylist [5, 7]) (3/2) (-(1/2)) 0 3
      ()).1 = .error .sampleError := by
  constructor
  · exact (split_dataset_ratio_sum_only takeSampler unitSeed).1 (.pylist [9])
      (1/4) (1/4) (1/2) 3 () (by with_unfolding_all decide)
  · exact (split_dataset_ratio_sum_only takeSampler unitSeed).2
      takeSampler_valid [5, 7] 3 () (by decide)

/-- C1: whenever `split_dataset` returns (data a list, or a dict with the
unique keys Python guarantees, and the ratios within tolerance of summing
to one), the three subset sizes add up to `len(data)`, and the three index
lists are pairwise disjoint with union exactly `{0, …, len(data)-1}`. -/
theorem split_dataset_partitions {σ α : Type} [Inhabited α] {s : Sampler σ}
    {f : ℤ → σ} {data : PyData α} {t v te : ℚ} {seed : ℤ} {g0 : σ}
    {res : SplitResult α} (hs : ValidSampler s)
    (hkeys : ∀ d, data = .pydict d → (d.map Prod.fst).Nodup)
    (hr : |t + v + te - 1| ≤ 1 / 10 ^ 10)
    (h : (split_dataset s f data t v te seed g0).1 = .ok res) :
    res.train_set.len + res.val_set.len + res.test_set.len = data.len ∧
    (∀ i ∈ res.split_indices.train_indices,
      i ∉ res.split_indices.val_indices ∧ i ∉ res.split_indices.test_indices) ∧
    (∀ i ∈ res.split_indices.val_indices, i ∉ res.split_indices.test_indices) ∧
    (∀ i, i < data.len ↔ i ∈ res.split_indices.train_indices ∨
      i ∈ res.split_indices.val_indices ∨ i ∈ res.split_indices.test_indices) := by
  cases data with
  | other => simp [split_dataset] at h
  | pylist l =>
    obtain ⟨g2, hcore, htr, hval, hte⟩ := split_dataset_pylist_inv h
    obtain ⟨⟨hlent, hlenv⟩, ⟨hndt, hndv, hndte⟩, hmemt, hmemv, hchar, hsum⟩ :=
      split_core_some hs hcore
    simp only [PyData.len]
    refine ⟨?_, ?_, ?_, ?_⟩
    · rw [htr, hval, hte]
      simp only [PyData.len, length_select]
      exact hsum
    · intro i hi
      exact ⟨fun hiv => (hmemv i hiv).2 hi, fun hit => ((hchar i).mp hit).2.1 hi⟩
    · intro i hiv hit
      exact ((hchar i).mp hit).2.2 hiv
    · intro i
      constructor
      · intro hi
        by_cases h1 : i ∈ res.split_indices.train_indices
        · exact Or.inl h1
        by_cases h2 : i ∈ res.split_indices.val_indices
        · exact Or.inr (Or.inl h2)
        · exact Or.inr (Or.inr ((hchar i).mpr ⟨hi, h1, h2⟩))
      · rintro (h1 | h2 | h3)
        · exact hmemt i h1
        · exact (hmemv i h2).1
        · exact ((hchar i).mp h3).1
  | pydict d =>
    have hk : (d.map Prod.fst).Nodup := hkeys d rfl
    obtain ⟨g2, hcore, htr, hval, hte⟩ := split_dataset_pydict_inv h
    obtain ⟨⟨hlent, hlenv⟩, ⟨hndt, hndv, hndte⟩, hmemt, hmemv, hchar, hsum⟩ :=
      split_core_some hs hcore
    simp only [PyData.len]
    refine ⟨?_, ?_, ?_, ?_⟩
    · rw [htr, hval, hte]
      simp only [PyData.len]
      rw [select_dict_length hk hndt (fun i hi => hmemt i hi),
        select_dict_length hk hndv (fun i hi => (hmemv i hi).1),
        select_dict_length hk hndte (fun i hi => ((hchar i).mp hi).1)]
      exact hsum
    · intro i hi
      exact ⟨fun hiv => (hmemv i hiv).2 hi, fun hit => ((hchar i).mp hit).2.1 hi⟩
    · intro i hiv hit
      exact ((hchar i).mp hit).2.2 hiv
    · intro i
      constructor
      · intro hi
        by_cases h1 : i ∈ res.split_indices.train_indices
        · exact Or.inl h1
        by_cases h2 : i ∈ res.split_indices.val_indices
        · exact Or.inr (Or.inl h2)
        · exact Or.inr (Or.inr ((hchar i).mpr ⟨hi, h1, h2⟩))
      · rintro (h1 | h2 | h3)
        · exact hmemt i h1
        · exact (hmemv i h2).1
        · exact ((hchar i).mp h3).1

/-- C1 witness: the partition property at a concrete three-element list with
ratios (1/3, 1/3, 1/3). -/
theorem split_dataset_partitions_witness :
    |1/3 + 1/3 + 1/3 - 1| ≤ (1 : ℚ) / 10 ^ 10 ∧
    (split_dataset takeSampler unitSeed (.pylist [10, 20, 30]) (1/3) (1/3)
      (1/3) 7 ()).1 =
      .ok ⟨.pylist [10], .pylist [20], .pylist [30], ⟨[0], [1], [2]⟩⟩ ∧
    (PyData.pylist [10] : PyData ℕ).len + (PyData.pylist [20] : PyData ℕ).len +
      (PyData.pylist [30] : PyData ℕ).len = (PyData.pylist [10, 20, 30] : PyData ℕ).len := by
  have h : (split_dataset takeSampler unitSeed
      (.pylist [10, 20, 30] : PyData ℕ) (1/3) (1/3) (1/3) 7 ()).1 =
      .ok ⟨.pylist [10], .pylist [20], .pylist [30], ⟨[0], [1], [2]⟩⟩ := by
    with_unfolding_all decide
  refine ⟨by with_unfolding_all decide, h, ?_⟩
  exact (split_dataset_partitions takeSampler_valid
    (fun d hd => PyData.noConfusion hd) (by with_unfolding_all decide) h).1

/-- C3: for non-negative ratios summing exactly to one, the call succeeds;
the train index list and train subset have exactly `⌊total * train_ratio⌋`
elements, the val index list and val subset exactly `⌊total * val_ratio⌋`,
and the test subset receives exactly the indices left over (its size is the
remainder `total - ⌊total*train_ratio⌋ - ⌊total*val_ratio⌋`, not separately
rounded). -/
theorem split_dataset_sizes {σ α : Type} [Inhabited α] {s : Sampler σ}
    (hs : ValidSampler s) (f : ℤ → σ) (data : PyData α) {t v te : ℚ}
    (h0t : 0 ≤ t) (h0v : 0 ≤ v) (h0te : 0 ≤ te) (hsum : t + v + te = 1)
    (hkeys : ∀ d, data = .pydict d → (d.map Prod.fst).Nodup)
    (hdata : data ≠ .other) (seed : ℤ) (g0 : σ) :
    ∃ res g2, split_dataset s f data t v te seed g0 = (.ok res, g2) ∧
      (res.split_indices.train_indices.length : ℤ) = ⌊(data.len : ℚ) * t⌋ ∧
      (res.split_indices.val_indices.length : ℤ) = ⌊(data.len : ℚ) * v⌋ ∧
      res.train_set.len = res.split_indices.train_indices.length ∧
      res.val_set.len = res.split_indices.val_indices.length ∧
      res.test_set.len = res.split_indices.test_indices.length ∧
      (∀ i, i ∈ res.split_indices.test_indices ↔ i < data.len ∧
        i ∉ res.split_indices.train_indices ∧ i ∉ res.split_indices.val_indices) ∧
      (res.split_indices.test_indices.length : ℤ) =
        (data.len : ℤ) - ⌊(data.len : ℚ) * t⌋ - ⌊(data.len : ℚ) * v⌋ := by
  have htv : t + v ≤ 1 := by linarith
  have hr : ¬(|t + v + te - 1| > 1 / 10 ^ 10) := by
    rw [show t + v + te - 1 = 0 by linarith]
    norm_num
  cases data with
  | other => exact absurd rfl hdata
  | pylist l =>
    obtain ⟨idx, g2, hc, heq⟩ := split_dataset_pylist_ok hs f l t v te h0t h0v
      htv hr seed g0
    obtain ⟨⟨hlent, hlenv⟩, _, _, _, hchar, hsum2⟩ := split_core_some hs hc
    rw [pyTrunc_eq_floor (mul_nonneg (by positivity) h0t)] at hlent
    rw [pyTrunc_eq_floor (mul_nonneg (by positivity) h0v)] at hlenv
    simp only [PyData.len]
    exact ⟨_, g2, heq, hlent, hlenv, length_select _ _ _, length_select _ _ _,
      length_select _ _ _, hchar, by dsimp only; omega⟩
  | pydict d =>
    have hk : (d.map Prod.fst).Nodup := hkeys d rfl
    obtain ⟨idx, g2, hc, heq⟩ := split_dataset_pydict_ok hs f d t v te h0t h0v
      htv hr seed g0
    obtain ⟨⟨hlent, hlenv⟩, ⟨hndt, hndv, hndte⟩, hmemt, hmemv, hchar, hsum2⟩ :=
      split_core_some hs hc
    rw [pyTrunc_eq_floor (mul_nonneg (by positivity) h0t)] at hlent
    rw [pyTrunc_eq_floor (mul_nonneg (by positivity) h0v)] at hlenv
    simp only [PyData.len]
    exact ⟨_, g2, heq, hlent, hlenv,
      select_dict_length hk hndt (fun i hi => hmemt i hi),
      select_dict_length hk hndv (fun i hi => (hmemv i hi).1),
      select_dict_length hk hndte (fun i hi => ((hchar i).mp hi).1),
      hchar, by dsimp only; omega⟩

/-- C3 witness: sizes at a concrete five-element list with ratios
(0.6, 0.2, 0.2): train gets ⌊5*0.6⌋ = 3, val ⌊5*0.2⌋ = 1, test the one
remaining index. -/
theorem split_dataset_sizes_witness :
    (0 : ℚ) ≤ 6/10 ∧ (0 : ℚ) ≤ 2/10 ∧ (6 : ℚ)/10 + 2/10 + 2/10 = 1 ∧
    (∃ res g2,
      split_dataset takeSampler unitSeed (.pylist [1, 2, 3, 4, 5]) (6/10)
        (2/10) (2/10) 11 () = (.ok res, g2) ∧
      (res.split_indices.train_indices.length : ℤ) =
        ⌊((PyData.pylist [1, 2, 3, 4, 5] : PyData ℕ).len : ℚ) * (6/10)⌋ ∧
      (res.split_indices.val_indices.length : ℤ) =
        ⌊((PyData.pylist [1, 2, 3, 4, 5] : PyData ℕ).len : ℚ) * (2/10)⌋ ∧
      res.train_set.len = res.split_indices.train_indices.length ∧
      res.val_set.len = res.split_indices.val_indices.length ∧
      res.test_set.len = res.split_indices.test_indices.length ∧
      (∀ i, i ∈ res.split_indices.test_indices ↔
        i < (PyData.pylist [1, 2, 3, 4, 5] : PyData ℕ).len ∧
        i ∉ res.split_indices.train_indices ∧
        i ∉ res.split_indices.val_indices) ∧
      (res.split_indices.test_indices.length : ℤ) =
        ((PyData.pylist [1, 2, 3, 4, 5] : PyData ℕ).len : ℤ) -
        ⌊((PyData.pylist [1, 2, 3, 4, 5] : PyData ℕ).len : ℚ) * (6/10)⌋ -
        ⌊((PyData.pylist [1, 2, 3, 4, 5] : PyData ℕ).len : ℚ) * (2/10)⌋) := by
  refine ⟨by norm_num, by norm_num, by norm_num, ?_⟩
  exact split_dataset_sizes takeSampler_valid unitSeed
    (.pylist [1, 2, 3, 4, 5]) (by norm_num) (by norm_num) (by norm_num)
    (by norm_num) (fun d hd => PyData.noConfusion hd)
    (fun hd => PyData.noConfusion hd) 11 ()

theorem getD_keys_inj {α : Type} [Inhabited α] {d : List (String × α)}
    (hk : (d.map Prod.fst).Nodup) {i j : ℕ} (hi : i < d.length)
    (hj : j < d.length)
    (h : (d.getD i ("", default)).1 = (d.getD j ("", default)).1) : i = j := by
  rw [List.getD_eq_getElem _ _ hi, List.getD_eq_getElem _ _ hj] at h
  have hmap : (d.map Prod.fst).get ⟨i, by simpa using hi⟩ =
      (d.map Prod.fst).get ⟨j, by simpa using hj⟩ := by
    simp only [List.get_eq_getElem, List.getElem_map]
    exact h
  rw [hk.get_inj_iff] at hmap
  simpa using hmap

theorem getD_key_mem {α : Type} [Inhabited α] {d : List (String × α)} {i : ℕ}
    (hi : i < d.length) : (d.getD i ("", default)).1 ∈ d.map Prod.fst := by
  rw [List.getD_eq_getElem _ _ hi]
  exact List.mem_map_of_mem _ (List.getElem_mem hi)

theorem mem_keys_exists_index {α : Type} [Inhabited α] {d : List (String × α)}
    {k : String} (h : k ∈ d.map Prod.fst) :
    ∃ i, i < d.length ∧ (d.getD i ("", default)).1 = k := by
  rw [List.mem_map] at h
  obtain ⟨p, hp, hpk⟩ := h
  obtain ⟨n, hget⟩ := List.mem_iff_get.mp hp
  refine ⟨n.1, n.2, ?_⟩
  rw [List.getD_eq_get _ _ n.2]
  rw [show d.get ⟨n.1, n.2⟩ = d.get n from rfl, hget]
  exact hpk

theorem mem_select_keys {α : Type} [Inhabited α] {d : List (String × α)}
    {idxs : List ℕ} {k : String} :
    k ∈ (select d ("", default) idxs).map Prod.fst ↔
      ∃ i ∈ idxs, (d.getD i ("", default)).1 = k := by
  unfold select
  rw [List.map_map]
  simp [List.mem_map, Function.comp]

/-- C6: for dict input (with the unique keys Python guarantees) all three
returned subsets are dicts, their key lists are pairwise disjoint, and
together the keys are exactly the original key set. -/
theorem split_dataset_dict_keys {σ α : Type} [Inhabited α] {s : Sampler σ}
    {f : ℤ → σ} {d : List (String × α)} {t v te : ℚ} {seed : ℤ} {g0 : σ}
    {res : SplitResult α} (hs : ValidSampler s)
    (hk : (d.map Prod.fst).Nodup)
    (h : (split_dataset s f (.pydict d) t v te seed g0).1 = .ok res) :
    ∃ dtr dva dte, res.train_set = .pydict dtr ∧ res.val_set = .pydict dva ∧
      res.test_set = .pydict dte ∧
      (∀ k ∈ dtr.map Prod.fst, k ∉ dva.map Prod.fst ∧ k ∉ dte.map Prod.fst) ∧
      (∀ k ∈ dva.map Prod.fst, k ∉ dte.map Prod.fst) ∧
      (∀ k, k ∈ d.map Prod.fst ↔ k ∈ dtr.map Prod.fst ∨ k ∈ dva.map Prod.fst ∨
        k ∈ dte.map Prod.fst) := by
  obtain ⟨g2, hcore, htr, hval, hte⟩ := split_dataset_pydict_inv h
  obtain ⟨⟨hlent, hlenv⟩, ⟨hndt, hndv, hndte⟩, hmemt, hmemv, hchar, hsum⟩ :=
    split_core_some hs hcore
  have hbt : ∀ i ∈ res.split_indices.train_indices, i < d.length := hmemt
  have hbv : ∀ i ∈ res.split_indices.val_indices, i < d.length :=
    fun i hi => (hmemv i hi).1
  have hbe : ∀ i ∈ res.split_indices.test_indices, i < d.length :=
    fun i hi => ((hchar i).mp hi).1
  refine ⟨select d ("", default) res.split_indices.train_indices,
    select d ("", default) res.split_indices.val_indices,
    select d ("", default) res.split_indices.test_indices,
    by rw [htr, dictOfPairs_of_nodup (select_keys_nodup hk hndt hbt)],
    by rw [hval, dictOfPairs_of_nodup (select_keys_nodup hk hndv hbv)],
    by rw [hte, dictOfPairs_of_nodup (select_keys_nodup hk hndte hbe)],
    ?_, ?_, ?_⟩
  · intro k hkt
    obtain ⟨i, hit, hik⟩ := mem_select_keys.mp hkt
    constructor
    · intro hkv
      obtain ⟨j, hjv, hjk⟩ := mem_select_keys.mp hkv
      have hij := getD_keys_inj hk (hbt i hit) (hbv j hjv) (hik.trans hjk.symm)
      exact (hmemv j hjv).2 (hij ▸ hit)
    · intro hke
      obtain ⟨j, hje, hjk⟩ := mem_select_keys.mp hke
      have hij := getD_keys_inj hk (hbt i hit) (hbe j hje) (hik.trans hjk.symm)
      exact ((hchar j).mp hje).2.1 (hij ▸ hit)
  · intro k hkv
    obtain ⟨i, hiv, hik⟩ := mem_select_keys.mp hkv
    intro hke
    obtain ⟨j, hje, hjk⟩ := mem_select_keys.mp hke
    have hij := getD_keys_inj hk (hbv i hiv) (hbe j hje) (hik.trans hjk.symm)
    exact ((hchar j).mp hje).2.2 (hij ▸ hiv)
  · intro k
    constructor
    · intro hkd
      obtain ⟨i, hi, hik⟩ := mem_keys_exists_index hkd
      by_cases h1 : i ∈ res.split_indices.train_indices
      · exact Or.inl (mem_select_keys.mpr ⟨i, h1, hik⟩)
      by_cases h2 : i ∈ res.split_indices.val_indices
      · exact Or.inr (Or.inl (mem_select_keys.mpr ⟨i, h2, hik⟩))
      · exact Or.inr (Or.inr (mem_select_keys.mpr
          ⟨i, (hchar i).mpr ⟨hi, h1, h2⟩, hik⟩))
    · rintro (hh | hh | hh)
      · obtain ⟨i, hi, hik⟩ := mem_select_keys.mp hh
        exact hik ▸ getD_key_mem (hbt i hi)
      · obtain ⟨i, hi, hik⟩ := mem_select_keys.mp hh
        exact hik ▸ getD_key_mem (hbv i hi)
      · obtain ⟨i, hi, hik⟩ := mem_select_keys.mp hh
        exact hik ▸ getD_key_mem (hbe i hi)

/-- C6 witness: the four-key mapping with ratios (0.75, 0, 0.25): subsets
are dicts and the keys come out partitioned 3/0/1. -/
theorem split_dataset_dict_keys_witness :
    (([("a", 1), ("b", 2), ("c", 3), ("d", 4)].map Prod.fst).Nodup) ∧
    (split_dataset takeSampler unitSeed
      (.pydict [("a", 1), ("b", 2), ("c", 3), ("d", 4)] : PyData ℕ) (3/4) 0
      (1/4) 1 ()).1 =
      .ok ⟨.pydict [("a", 1), ("b", 2), ("c", 3)], .pydict [],
           .pydict [("d", 4)], ⟨[0, 1, 2], [], [3]⟩⟩ ∧
    ([("a", 1), ("b", 2), ("c", 3)].length = 3 ∧ ([] : List (String × ℕ)).length = 0 ∧
      [("d", 4)].length = 1) ∧
    (∃ dtr dva dte,
      (PyData.pydict [("a", 1), ("b", 2), ("c", 3)] : PyData ℕ) = .pydict dtr ∧
      (PyData.pydict [] : PyData ℕ) = .pydict dva ∧
      (PyData.pydict [("d", 4)] : PyData ℕ) = .pydict dte ∧
      (∀ k ∈ dtr.map Prod.fst, k ∉ dva.map Prod.fst ∧ k ∉ dte.map Prod.fst) ∧
      (∀ k ∈ dva.map Prod.fst, k ∉ dte.map Prod.fst) ∧
      (∀ k, k ∈ [("a", 1), ("b", 2), ("c", 3), ("d", 4)].map Prod.fst ↔
        k ∈ dtr.map Prod.fst ∨ k ∈ dva.map Prod.fst ∨ k ∈ dte.map Prod.fst)) := by
  have hk : (([("a", 1), ("b", 2), ("c", 3), ("d", 4)] : List (String × ℕ)).map
      Prod.fst).Nodup := by with_unfolding_all decide
  have h : (split_dataset takeSampler unitSeed
      (.pydict [("a", 1), ("b", 2), ("c", 3), ("d", 4)] : PyData ℕ) (3/4) 0
      (1/4) 1 ()).1 =
      .ok ⟨.pydict [("a", 1), ("b", 2), ("c", 3)], .pydict [],
           .pydict [("d", 4)], ⟨[0, 1, 2], [], [3]⟩⟩ := by
    with_unfolding_all decide
  exact ⟨hk, h, ⟨rfl, rfl, rfl⟩, split_dataset_dict_keys takeSampler_valid hk h⟩

theorem pyTrunc_zero : pyTrunc 0 = 0 := by with_unfolding_all decide

theorem split_core_zero {σ : Type} {s : Sampler σ} (hs : ValidSampler s)
    (g : σ) :
    ∃ g2, split_core s g 0 0 0 = (some ⟨[], [], []⟩, g2) := by
  obtain ⟨o1, g1, heq1, hlen1, -, -⟩ :=
    (hs g [] 0 List.nodup_nil).1 (by simp)
  have ho1 : o1 = [] := List.length_eq_zero.mp (by exact_mod_cast hlen1)
  subst ho1
  obtain ⟨o2, g2, heq2, hlen2, -, -⟩ :=
    (hs g1 [] 0 List.nodup_nil).1 (by simp)
  have ho2 : o2 = [] := List.length_eq_zero.mp (by exact_mod_cast hlen2)
  subst ho2
  refine ⟨g2, ?_⟩
  simp only [split_core, List.range_zero, List.filter_nil, heq1, heq2]

/-- C9: edge cases of `split_dataset` succeed. With `val_ratio = 0` (valid
remaining ratios) the val subset and the val index list are empty
collections, not an error; with empty input all three subsets and index
lists are empty, and the ratio validation is still applied first (a bad sum
on empty input is still the ratio error). -/
theorem split_dataset_edge_cases {σ α : Type} [Inhabited α] (s : Sampler σ)
    (f : ℤ → σ) :
    (ValidSampler s → ∀ (l : List α) (t te : ℚ) (seed : ℤ) (g0 : σ),
      0 ≤ t → t ≤ 1 → ¬(|t + 0 + te - 1| > 1 / 10 ^ 10) →
      ∃ res g2, split_dataset s f (.pylist l) t 0 te seed g0 = (.ok res, g2) ∧
        res.val_set = .pylist ([] : List α) ∧
        res.split_indices.val_indices = []) ∧
    (ValidSampler s → ∀ (t v te : ℚ) (seed : ℤ) (g0 : σ),
      ¬(|t + v + te - 1| > 1 / 10 ^ 10) →
      ∃ g2, split_dataset s f (.pylist ([] : List α)) t v te seed g0 =
        (.ok ⟨.pylist [], .pylist [], .pylist [], ⟨[], [], []⟩⟩, g2)) ∧
    (∀ (t v te : ℚ) (seed : ℤ) (g0 : σ), |t + v + te - 1| > 1 / 10 ^ 10 →
      split_dataset s f (.pylist ([] : List α)) t v te seed g0 =
        (.error .ratioError, g0)) := by
  refine ⟨?_, ?_, ?_⟩
  · intro hs l t te seed g0 h0t ht1 hr
    obtain ⟨idx, g2, hc, heq⟩ := split_dataset_pylist_ok hs f l t 0 te h0t
      le_rfl (by linarith) hr seed g0
    obtain ⟨⟨-, hlenv⟩, -, -, -, -, -⟩ := split_core_some hs hc
    have hpt : pyTrunc ((l.length : ℚ) * 0) = 0 := by
      rw [mul_zero, pyTrunc_zero]
    rw [hpt] at hlenv
    have hvnil : idx.val_indices = [] :=
      List.length_eq_zero.mp (by exact_mod_cast hlenv)
    exact ⟨_, g2, heq, by simp [hvnil, select], hvnil⟩
  · intro hs t v te seed g0 hr
    obtain ⟨g2, hz⟩ := split_core_zero hs (f seed)
    refine ⟨g2, ?_⟩
    simp only [split_dataset]
    rw [if_neg hr]
    simp only [List.length_nil, Nat.cast_zero, zero_mul, pyTrunc_zero]
    rw [hz]
    rfl
  · intro t v te seed g0 hr
    simp only [split_dataset]
    rw [if_pos hr]

/-- C9 witness: `val_ratio = 0` on a two-element list, the empty input with
valid ratios, and the empty input with a bad ratio sum. -/
theorem split_dataset_edge_cases_witness :
    (∃ res g2,
      split_dataset takeSampler unitSeed (.pylist [1, 2]) 1 0 0 5 () =
        (.ok res, g2) ∧
      res.val_set = .pylist ([] : List ℕ) ∧
      res.split_indices.val_indices = []) ∧
    (∃ g2, split_dataset takeSampler unitSeed (.pylist ([] : List ℕ)) (1/2)
        (1/4) (1/4) 5 () =
      (.ok ⟨.pylist [], .pylist [], .pylist [], ⟨[], [], []⟩⟩, g2)) ∧
    split_dataset takeSampler unitSeed (.pylist ([] : List ℕ)) (1/2) (1/2)
        (1/2) 5 () = (.error .ratioError, ()) := by
  refine ⟨?_, ?_, ?_⟩
  · exact (split_dataset_edge_cases takeSampler unitSeed).1 takeSampler_valid
      [1, 2] 1 0 5 () (by norm_num) (by norm_num) (by with_unfolding_all decide)
  · exact (split_dataset_edge_cases takeSampler unitSeed).2.1 takeSampler_valid
      (1/2) (1/4) (1/4) 5 () (by with_unfolding_all decide)
  · exact (split_dataset_edge_cases takeSampler unitSeed).2.2 (1/2) (1/2)
      (1/2) 5 () (by with_unfolding_all decide)

theorem foldl_conclusion (ctxs : List String) (acc ans : String) :
    ctxs.foldl (fun a c => a ++ c ++ "\n") acc ++ ans ++ "\n" =
      acc ++ conclusionSpec ctxs ans := by
  induction ctxs generalizing acc with
  | nil => simp [conclusionSpec, String.append_assoc]
  | cons c cs ih =>
    rw [List.foldl_cons, ih]
    simp [conclusionSpec, String.append_assoc]

theorem flattenRecord_complete (k : String) (ctxs : List String)
    (ans q : String) (m fdv : PyVal) :
    flattenRecord k ⟨some ctxs, some ans, some q, some m, some fdv⟩ =
      .ok ⟨k, q, conclusionSpec ctxs ans, m, fdv⟩ := by
  have hstr := foldl_conclusion ctxs "" ans
  rw [String.empty_append] at hstr
  simp only [flattenRecord]
  rw [hstr]

theorem flattenRecord_incomplete {k : String} {r : RawRecord}
    (h : ¬ r.complete) : ∃ e, flattenRecord k r = .error e := by
  rcases r with ⟨c, a, q, m, fdv⟩
  cases c <;> cases a <;> cases q <;> cases m <;> cases fdv <;>
    first
      | exact ⟨.keyError, rfl⟩
      | exact absurd ⟨rfl, rfl, rfl, rfl, rfl⟩ h

theorem flattenAll_error_of_incomplete :
    ∀ {d : List (String × RawRecord)} {p : String × RawRecord}, p ∈ d →
      ¬ p.2.complete → ∃ e, flattenAll d = .error e := by
  intro d
  induction d with
  | nil =>
    intro p hp
    exact absurd hp (List.not_mem_nil p)
  | cons x rest ih =>
    intro p hp hnc
    rcases x with ⟨k, r⟩
    rcases List.mem_cons.mp hp with heq | hmem
    · obtain ⟨e, he⟩ := flattenRecord_incomplete (k := k)
        (r := r) (by rw [heq] at hnc; exact hnc)
      exact ⟨e, by simp only [flattenAll, he]⟩
    · rcases hh : flattenRecord k r with e2 | fr
      · exact ⟨e2, by simp only [flattenAll, hh]⟩
      · obtain ⟨e, he⟩ := ih hmem hnc
        exact ⟨e, by simp only [flattenAll, hh, he]⟩

/-- C7: for a mapping dataset whose records all carry the required fields,
the flattener emits, in dataset iteration order, one output object per
record with fields idx (the identifier), QUESTION, CONCLUSION (each string
of CONTEXTS followed by a newline, then LONG_ANSWER followed by a newline),
TYPE (the MESHES value) and FINAL_DECISION (the final_decision value); the
concrete one-record example produces exactly the expected line. -/
theorem organize_conclusion_flattens :
    (∀ (d : List (String × (List String × String × String × PyVal × PyVal))),
      organize_conclusion (.fdict (d.map (fun p => (p.1,
        ⟨some p.2.1, some p.2.2.1, some p.2.2.2.1, some p.2.2.2.2.1,
         some p.2.2.2.2.2⟩)))) =
      .ok (d.map (fun p => ⟨p.1, p.2.2.2.1, conclusionSpec p.2.1 p.2.2.1,
        p.2.2.2.2.1, p.2.2.2.2.2⟩))) ∧
    organize_conclusion (.fdict [("1", ⟨some ["A.", "B."], some "C.",
        some "Q?", some (.strlist ["x"]), some (.str "yes")⟩)]) =
      .ok [⟨"1", "Q?", "A.\nB.\nC.\n", .strlist ["x"], .str "yes"⟩] := by
  constructor
  · intro d
    induction d with
    | nil => rfl
    | cons p rest ih =>
      rcases p with ⟨k, ctxs, ans, q, m, fdv⟩
      simp only [List.map_cons]
      simp only [organize_conclusion] at ih ⊢
      simp only [flattenAll]
      rw [flattenRecord_complete]
      rw [ih]
  · rfl

/-- C8 counterexample: the flattener does not fail on every non-mapping
dataset — on the empty sequence the loop body never runs, so the call
succeeds and writes nothing. -/
theorem organize_conclusion_empty_list_ok :
    organize_conclusion (.flist []) = .ok [] := rfl

/-- C8 (amended): the flattener fails on every NON-EMPTY sequence dataset
(`dataset[entry]` indexes the list with a record, a `TypeError`) and fails
whenever some record of a mapping dataset lacks a required field; the empty
sequence, however, succeeds and produces no output lines. -/
theorem organize_conclusion_failure_modes :
    (∀ (r : RawRecord) (l : List RawRecord),
      organize_conclusion (.flist (r :: l)) = .error .typeError) ∧
    (∀ (d : List (String × RawRecord)) (p : String × RawRecord), p ∈ d →
      ¬ p.2.complete → ∃ e, organize_conclusion (.fdict d) = .error e) ∧
    organize_conclusion (.flist []) = .ok [] := by
  refine ⟨fun r l => rfl, ?_, rfl⟩
  intro d p hp hnc
  exact flattenAll_error_of_incomplete hp hnc

/-- C8 witness: a one-record list fails with the type error; a mapping whose
only record lacks CONTEXTS fails; (the empty-sequence conjunct is closed). -/
theorem organize_conclusion_failure_modes_witness :
    organize_conclusion (.flist [⟨none, none, none, none, none⟩]) =
      .error .typeError ∧
    (∃ e, organize_conclusion (.fdict [("1",
      ⟨none, some "a", some "q", some (.str "m"), some (.str "y")⟩)]) =
      .error e) := by
  constructor
  · exact organize_conclusion_failure_modes.1 ⟨none, none, none, none, none⟩ []
  · exact organize_conclusion_failure_modes.2.1 _
      ("1", ⟨none, some "a", some "q", some (.str "m"), some (.str "y")⟩)
      (List.mem_singleton.mpr rfl) (by simp [RawRecord.complete])
